import Mathlib

set_option linter.unusedVariables false

/-!
Shallow embedding of the sentinel-community remote code-execution service.

The executor (src/executor.ts, the caching variant) is modelled as a pure
function over an explicit environment `ExecEnv` that records the outcome of
every effectful call the TypeScript code makes: filesystem operations
(as `Except String Unit`, the `.error` case being a thrown exception whose
message is the string), cache-existence probes (as booleans), the observable
behavior of each spawned child process (as a `ProcBehavior`: the stream
chunks delivered before the promise settles and how the run ends), and the
values read from the wall clock at each `Date.now()` call site.

The dispatcher's queue selection (src/master.ts, `selectContainer`) is
modelled over an abstract waiting-count function `String → Nat`, one count
per instance queue, mirroring `getWaiting().length`.
-/

namespace Sentinel

/-- Whitespace recognized by the JS `String.prototype.trim` used throughout the
executor: ASCII whitespace plus NBSP and BOM. -/
def isJsSpace (c : Char) : Bool :=
  c = ' ' || c = '\t' || c = '\n' || c = '\r' ||
  c = Char.ofNat 11 || c = Char.ofNat 12 || c = Char.ofNat 0xA0 || c = Char.ofNat 0xFEFF

def trimEndList (l : List Char) : List Char :=
  (l.reverse.dropWhile isJsSpace).reverse

def jsTrimList (l : List Char) : List Char :=
  trimEndList (l.dropWhile isJsSpace)

/-- Model of JS `String.prototype.trim`: strip leading and trailing whitespace. -/
def jsTrim (s : String) : String :=
  ⟨jsTrimList s.data⟩

/-- Model of JS `String.prototype.replace` with a string pattern: only the first
occurrence of the pattern is replaced (for the empty pattern, JS inserts the
replacement at position 0). -/
def replaceFirst : List Char → List Char → List Char → List Char
  | [], pat, repl => if pat.isEmpty then repl else []
  | c :: rest, pat, repl =>
    if pat.isPrefixOf (c :: rest) then repl ++ (c :: rest).drop pat.length
    else c :: replaceFirst rest pat repl

def jsReplace (s pat repl : String) : String :=
  ⟨replaceFirst s.data pat.data repl.data⟩

/-- The token substitution the executor applies to each element of
`descriptor.args` and `descriptor.compile.args`:
`arg.replace('\x7bfile\x7d', filepath).replace('\x7bdir\x7d', sessionDir).replace('\x7bfilename\x7d', filename)`. -/
def substituteArg (arg filepath dir filename : String) : String :=
  jsReplace (jsReplace (jsReplace arg "{file}" filepath) "{dir}" dir) "{filename}" filename

/-- JS `a || b` for strings: the empty string is falsy. -/
def jsOrString (a b : String) : String := if a = "" then b else a

/-- JS `a || b` for numbers: 0 is falsy. -/
def jsOrNat (a b : Nat) : Nat := if a = 0 then b else a

/-- JS `(optional field) || default` for an optional string field. -/
def jsOptString (o : Option String) (d : String) : String :=
  match o with
  | some s => jsOrString s d
  | none => d

/-- JS `code || 0` applied to the child's exit code (`number | null`):
a null exit code is normalized to 0. -/
def jsOrExit (code : Option Int) : Int :=
  match code with
  | some v => if v = 0 then 0 else v
  | none => 0

/-! ## Data model (src/types.ts) -/

structure CompileConfig where
  command : String
  args : List String
  timeout : Nat
  deriving Repr, DecidableEq

structure LanguageConfig where
  name : String
  displayName : String
  extension : String
  command : String
  args : List String
  timeout : Nat
  compile : Option CompileConfig := none
  filename : Option String := none
  deriving Repr, DecidableEq

structure TestCase where
  input : String
  expected : String
  deriving Repr, DecidableEq

structure TestCaseResult where
  input : String
  expected : String
  actualOutput : String
  passed : Bool
  error : Option String
  executionTime : Nat
  deriving Repr, DecidableEq

inductive ExecStatus where
  | success
  | error
  deriving Repr, DecidableEq

structure ExecutionResult where
  output : String
  error : String
  executionTime : Nat
  status : ExecStatus
  testCases : Option (List TestCaseResult) := none
  deriving Repr, DecidableEq

structure CommandResult where
  stdout : String
  stderr : String
  exitCode : Int
  deriving Repr, DecidableEq

/-! ## Child-process model (runCommand in src/executor.ts) -/

def MAX_OUTPUT_SIZE : Nat := 1024 * 1024

/-- One `data` event on a child's stdout or stderr pipe. -/
inductive ProcEvent where
  | out (data : String)
  | err (data : String)
  deriving Repr, DecidableEq

/-- How a child-process run ends, as seen by `runCommand`'s promise:
the `close` event with its exit code, the executor's timeout timer firing
first (which SIGKILLs the child and rejects with "Execution timeout"), or an
`error` event (spawn failure) carrying the error's message. -/
inductive ProcEnding where
  | closed (code : Option Int)
  | timedOut
  | errored (msg : String)
  deriving Repr, DecidableEq

/-- Observable behavior of one spawned child process: the stream chunks
delivered before the promise settles, then how the run ends. -/
structure ProcBehavior where
  events : List ProcEvent
  ending : ProcEnding
  deriving Repr, DecidableEq

/-- The stdout/stderr accumulation loop of `runCommand`: each data event is
appended to the matching accumulator and the executor kills the child and
rejects as soon as an accumulator's length exceeds `MAX_OUTPUT_SIZE`.
Note the two streams reject with different messages. -/
def capScan : List ProcEvent → String → String → Except String (String × String)
  | [], so, se => .ok (so, se)
  | .out d :: rest, so, se =>
    let so2 := so ++ d
    if so2.length > MAX_OUTPUT_SIZE then .error "Output size exceeded limit"
    else capScan rest so2 se
  | .err d :: rest, so, se =>
    let se2 := se ++ d
    if se2.length > MAX_OUTPUT_SIZE then .error "Error output size exceeded limit"
    else capScan rest so se2

/-- Model of `runCommand`: `.error msg` is a rejected promise, `.ok` a resolved
one. On a clean close the result carries trimmed stdout, trimmed stderr, and
the exit code with null normalized to 0 (`code || 0`). -/
def runCommand (command : String) (args : List String) (cwd input : String)
    (timeout : Nat) (b : ProcBehavior) : Except String CommandResult :=
  match capScan b.events "" "" with
  | .error e => .error e
  | .ok (so, se) =>
    match b.ending with
    | .closed code => .ok { stdout := jsTrim so, stderr := jsTrim se, exitCode := jsOrExit code }
    | .timedOut => .error "Execution timeout"
    | .errored msg => .error msg

/-- Total length of the stdout chunks a behavior delivers. -/
def outTotal : List ProcEvent → Nat
  | [] => 0
  | .out d :: rest => d.length + outTotal rest
  | .err _ :: rest => outTotal rest

/-- Total length of the stderr chunks a behavior delivers. -/
def errTotal : List ProcEvent → Nat
  | [] => 0
  | .out _ :: rest => errTotal rest
  | .err d :: rest => d.length + errTotal rest

/-! ## Compile cache key (hashContent in src/executor.ts) -/

/-- The string passed to `crypto.createHash('sha256').update(...)` in
`hashContent(content, salt)`: the cache key is the sha256 hex digest of this
string, so since sha256 is deterministic and collision-resistant, key
equality and inequality are compared at this preimage level. -/
def hashContentInput (content salt : String) : String := salt ++ "\n" ++ content

/-- The compile-cache key preimage actually computed by the executor:
`hashContent(code, langConfig.name + ":" + compile.command + ":" + compile.args.join(' '))`. -/
def cacheKeyInput (cfg : LanguageConfig) (cc : CompileConfig) (code : String) : String :=
  hashContentInput code (cfg.name ++ ":" ++ cc.command ++ ":" ++ String.intercalate " " cc.args)

/-- Modelled from the spec words (section 3, CompileCacheEntry), for comparison
with `cacheKeyInput`: language name, then 0x0A, then compile command, a
space, and the compile args joined by single spaces, then 0x0A, then the
source bytes. -/
def specCacheKeyInput (cfg : LanguageConfig) (cc : CompileConfig) (code : String) : String :=
  cfg.name ++ "\n" ++ cc.command ++ " " ++ String.intercalate " " cc.args ++ "\n" ++ code

/-! ## Executor environment -/

/-- Outcomes of every effectful call one `executeCode` invocation makes.
`Except String Unit` fields model fs promises (`.error m` = rejection with an
`Error` whose message is `m`); boolean fields model the `pathExists` probes
of the compile cache; `ProcBehavior` fields model the spawned children
(compile step, per-test-case runs indexed by position, and the single run);
the `t*` fields are the wall-clock values read at each `Date.now()` call
site. Cache-write and cleanup failures are swallowed by the source
(try/catch with empty handler), so they need no fields. -/
structure ExecEnv where
  sessionId : String
  mkdirSession : Except String Unit
  writeSource : Except String Unit
  probeA : Bool
  probeB : Bool
  copyHit : Except String Unit
  compileRun : ProcBehavior
  testRun : Nat → ProcBehavior
  singleRun : ProcBehavior
  tStart : Nat
  tCompileFail : Nat
  tFinal : Nat
  tCatch : Nat
  tTestStart : Nat → Nat
  tTestEnd : Nat → Nat

def TEMP_DIR : String := "/tmp/code-execution"

def pathJoin (a b : String) : String := a ++ "/" ++ b

def sessionDirOf (env : ExecEnv) : String := pathJoin TEMP_DIR env.sessionId

/-- `langConfig.filename || ("main" + langConfig.extension)`. -/
def filenameOf (cfg : LanguageConfig) : String :=
  jsOptString cfg.filename ("main" ++ cfg.extension)

def filepathOf (env : ExecEnv) (cfg : LanguageConfig) : String :=
  pathJoin (sessionDirOf env) (filenameOf cfg)

/-- The per-language cache-hit probe (lines 78-103 of the executor): `probeA`
is the first `pathExists` of the branch (the cached cpp binary, the java
cache directory, or the typescript `dist/main.js`), `probeB` the java
`Main.class` check, and `copyHit` the copy of the cached artifact into the
workspace, whose failure propagates to the outer catch. Languages other
than cpp, java and typescript have no hit logic. -/
def cacheProbe (env : ExecEnv) (cfg : LanguageConfig) : Except String Bool :=
  if cfg.name = "cpp" then
    if env.probeA then
      match env.copyHit with
      | .error e => .error e
      | .ok _ => .ok true
    else .ok false
  else if cfg.name = "java" then
    if env.probeA then
      if env.probeB then
        match env.copyHit with
        | .error e => .error e
        | .ok _ => .ok true
      else .ok false
    else .ok false
  else if cfg.name = "typescript" then
    if env.probeA then
      match env.copyHit with
      | .error e => .error e
      | .ok _ => .ok true
    else .ok false
  else .ok false

/-- The compile step (lines 72-159): on a cache miss, run the compile command
with substituted args under `compile.timeout || 10000`; a non-zero exit
code causes the early `Compilation failed` return (`.ok (some result)`);
rejections propagate (`.error`); otherwise execution continues (`.ok none`).
Cache writes after a successful compile are try/catch-swallowed by the
source and have no observable effect on the result. -/
def compileStage (env : ExecEnv) (cfg : LanguageConfig)
    (filepath sessionDir filename code : String) : Except String (Option ExecutionResult) :=
  match cfg.compile with
  | none => .ok none
  | some cc =>
    let cacheKey := cacheKeyInput cfg cc code
    match cacheProbe env cfg with
    | .error e => .error e
    | .ok true => .ok none
    | .ok false =>
      let compileArgs := cc.args.map (fun arg => substituteArg arg filepath sessionDir filename)
      match runCommand cc.command compileArgs sessionDir "" (jsOrNat cc.timeout 10000) env.compileRun with
      | .error e => .error e
      | .ok cr =>
        if cr.exitCode ≠ 0 then
          .ok (some { output := ""
                      error := "Compilation failed: " ++ jsOrString cr.stderr cr.stdout
                      executionTime := env.tCompileFail - env.tStart
                      status := .error
                      testCases := none })
        else .ok none

/-- One iteration of the test-case loop (lines 165-207): run the program with
the case's input; on a resolved run record trimmed stdout, the comparison
against the trimmed expected value, and `stderr || undefined` as the error
field; on a rejected run record empty output, `passed := false` and the
rejection message. -/
def runOneCase (env : ExecEnv) (cfg : LanguageConfig)
    (filepath sessionDir filename : String) (tc : TestCase) (i : Nat) : TestCaseResult :=
  let executeArgs := cfg.args.map (fun arg => substituteArg arg filepath sessionDir filename)
  match runCommand cfg.command executeArgs sessionDir tc.input cfg.timeout (env.testRun i) with
  | .ok r =>
    { input := tc.input
      expected := tc.expected
      actualOutput := jsTrim r.stdout
      passed := jsTrim r.stdout == jsTrim tc.expected
      error := if r.stderr = "" then none else some r.stderr
      executionTime := env.tTestEnd i - env.tTestStart i }
  | .error e =>
    { input := tc.input
      expected := tc.expected
      actualOutput := ""
      passed := false
      error := some e
      executionTime := env.tTestEnd i - env.tTestStart i }

/-- The test-case loop: one result is pushed per test case, in order. -/
def testLoop (env : ExecEnv) (cfg : LanguageConfig)
    (filepath sessionDir filename : String) : List TestCase → Nat → List TestCaseResult
  | [], _ => []
  | tc :: rest, i =>
    runOneCase env cfg filepath sessionDir filename tc i ::
      testLoop env cfg filepath sessionDir filename rest (i + 1)

/-- The body of the `try` block of `executeCode` (lines 63-243): `.error m` is
an exception reaching the outer catch. -/
def executeBody (env : ExecEnv) (cfg : LanguageConfig) (code input : String)
    (testCases : Option (List TestCase)) : Except String ExecutionResult :=
  match env.mkdirSession with
  | .error e => .error e
  | .ok _ =>
    let sessionDir := sessionDirOf env
    let filename := filenameOf cfg
    let filepath := filepathOf env cfg
    match env.writeSource with
    | .error e => .error e
    | .ok _ =>
      match compileStage env cfg filepath sessionDir filename code with
      | .error e => .error e
      | .ok (some result) => .ok result
      | .ok none =>
        match testCases with
        | some (tc :: rest) =>
          let results := testLoop env cfg filepath sessionDir filename (tc :: rest) 0
          .ok { output := ""
                error := ""
                executionTime := env.tFinal - env.tStart
                status := .success
                testCases := some results }
        | _ =>
          let executeArgs := cfg.args.map (fun arg => substituteArg arg filepath sessionDir filename)
          match runCommand cfg.command executeArgs sessionDir input cfg.timeout env.singleRun with
          | .error e => .error e
          | .ok r =>
            .ok { output := r.stdout
                  error := r.stderr
                  executionTime := env.tFinal - env.tStart
                  status := .success
                  testCases := none }

/-- Model of `executeCode(code, language, input, testCases)`. The result is
`Except String ExecutionResult`: `.error m` is an exception thrown to the
caller (only the unsupported-language check sits outside the try block),
`.ok` the returned `ExecutionResult`; an exception inside the try block is
converted by the catch block into a `status := error` result carrying the
exception's message. -/
def executeCode (env : ExecEnv) (getLanguage : String → Option LanguageConfig)
    (code language input : String) (testCases : Option (List TestCase)) :
    Except String ExecutionResult :=
  match getLanguage language with
  | none => .error ("Unsupported language: " ++ language)
  | some cfg =>
    match executeBody env cfg code input testCases with
    | .ok r => .ok r
    | .error e =>
      .ok { output := ""
            error := e
            executionTime := env.tCatch - env.tStart
            status := .error
            testCases := none }

/-- Every error message the environment can inject (fs rejections and spawn
`error` events) is non-empty; the messages the executor itself fabricates
("Execution timeout", the two output caps) are non-empty literals. -/
def EnvMsgsNonempty (env : ExecEnv) : Prop :=
  (∀ e, env.mkdirSession = .error e → e ≠ "") ∧
  (∀ e, env.writeSource = .error e → e ≠ "") ∧
  (∀ e, env.copyHit = .error e → e ≠ "") ∧
  (∀ m, env.compileRun.ending = .errored m → m ≠ "") ∧
  (∀ i m, (env.testRun i).ending = .errored m → m ≠ "") ∧
  (∀ m, env.singleRun.ending = .errored m → m ≠ "")

/-! ## Dispatcher queue selection (src/master.ts) -/

/-- `getContainersForLanguage`: the fixed instance order per language; the
default branch of the switch throws. -/
def getContainersForLanguage (language : String) : Except String (List String) :=
  if language = "python" then .ok ["python-1", "python-2"]
  else if language = "java" then .ok ["java-1", "java-2"]
  else if language = "javascript" then .ok ["javascript-1"]
  else if language = "cpp" then .ok ["cpp-1"]
  else if language = "go" then .ok ["go-1"]
  else .error ("Unsupported language: " ++ language)

/-- The balancing loop of `selectContainer` over `containers.slice(1)`:
a container replaces the current best only when its waiting count is
strictly smaller, so ties keep the earlier instance. -/
def selectLoop (waiting : String → Nat) : List String → String → Nat → String
  | [], best, _ => best
  | c :: cs, best, lowest =>
    if waiting c < lowest then selectLoop waiting cs c (waiting c)
    else selectLoop waiting cs best lowest

/-- `selectContainer(language)`: with a single instance queue the first (only)
container is returned before any waiting count is read; with several, the
queue with the fewest waiting jobs wins, ties broken by instance order.
`waiting c` models `codeQueues[c].getWaiting().length`. (The `[]` case is
unreachable: every switch branch returns a non-empty list.) -/
def selectContainer (waiting : String → Nat) (language : String) : Except String String :=
  match getContainersForLanguage language with
  | .error e => .error e
  | .ok containers =>
    match containers with
    | [] => .error "no containers"
    | c0 :: rest =>
      if containers.length = 1 then .ok c0
      else .ok (selectLoop waiting rest c0 (waiting c0))

/-! ## Occurrence predicates for reasoning about replaceFirst -/

/-- `pat` occurs as a contiguous substring of `s` (at some position). -/
def occursIn (pat : List Char) : List Char → Bool
  | [] => pat.isPrefixOf []
  | c :: rest => pat.isPrefixOf (c :: rest) || occursIn pat rest

/-- No occurrence of `pat` starts at a position strictly before `k` in `s`
(so an occurrence at position `k` is the first one). -/
def noMatchBefore (pat : List Char) : List Char → Nat → Bool
  | _, 0 => true
  | s, k + 1 => !(pat.isPrefixOf s) && noMatchBefore pat s.tail k

/-! ## Concrete fixtures used by witnesses and counterexamples -/

/-- A benign environment: every fs call succeeds, no cache hit, every child
closes immediately with exit code 0 and no output, all clocks read 0. -/
def env0 : ExecEnv :=
  { sessionId := "s"
    mkdirSession := .ok ()
    writeSource := .ok ()
    probeA := false
    probeB := false
    copyHit := .ok ()
    compileRun := ⟨[], .closed (some 0)⟩
    testRun := fun _ => ⟨[], .closed (some 0)⟩
    singleRun := ⟨[], .closed (some 0)⟩
    tStart := 0
    tCompileFail := 0
    tFinal := 0
    tCatch := 0
    tTestStart := fun _ => 0
    tTestEnd := fun _ => 0 }

/-- An interpreted language descriptor (no compile step). -/
def cfgPython : LanguageConfig :=
  { name := "python"
    displayName := "Python"
    extension := ".py"
    command := "python3"
    args := ["{file}"]
    timeout := 5000 }

/-- A compiled-language descriptor whose name has no cache-hit branch. -/
def cfgCompiled : LanguageConfig :=
  { name := "rust"
    displayName := "Rust"
    extension := ".rs"
    command := "./main"
    args := []
    timeout := 5000
    compile := some { command := "rustc", args := ["{file}"], timeout := 10000 } }

/-- A registry holding the two fixture languages. -/
def regW : String → Option LanguageConfig :=
  fun s => if s = "python" then some cfgPython else
    if s = "rust" then some cfgCompiled else none

/-- A chunk one byte over the output cap. -/
def bigChunk : String := ⟨List.replicate (MAX_OUTPUT_SIZE + 1) 'a'⟩

/-- Environment whose per-case runs all hit the run timeout. -/
def envTimeout : ExecEnv := { env0 with testRun := fun _ => ⟨[], ProcEnding.timedOut⟩ }

/-- Environment whose compile step closes with exit code 1 and no output. -/
def envCompileFail : ExecEnv := { env0 with compileRun := ⟨[], ProcEnding.closed (some 1)⟩ }

/-- Environment whose per-case runs complete normally but write "boom" to stderr. -/
def envStderr : ExecEnv :=
  { env0 with testRun := fun _ => ⟨[ProcEvent.err "boom"], ProcEnding.closed (some 0)⟩ }

/-! ## Helper lemmas: trimming -/

theorem dropWhile_isJsSpace_idem (l : List Char) :
    List.dropWhile isJsSpace (List.dropWhile isJsSpace l) = List.dropWhile isJsSpace l := by
  induction l with
  | nil => rfl
  | cons a t ih =>
    by_cases h : isJsSpace a
    · simp [List.dropWhile_cons, h, ih]
    · simp [List.dropWhile_cons, h]

theorem dropWhile_isJsSpace_head? (l : List Char) (a : Char)
    (h : (List.dropWhile isJsSpace l).head? = some a) : isJsSpace a = false := by
  induction l with
  | nil => simp at h
  | cons c t ih =>
    by_cases hc : isJsSpace c
    · rw [List.dropWhile_cons_of_pos hc] at h
      exact ih h
    · rw [List.dropWhile_cons_of_neg hc] at h
      simp at h
      subst h
      exact Bool.eq_false_iff.mpr hc

theorem dropWhile_eq_self_of_head? (l : List Char)
    (h : ∀ a, l.head? = some a → isJsSpace a = false) :
    List.dropWhile isJsSpace l = l := by
  cases l with
  | nil => rfl
  | cons a t =>
    have ha := h a rfl
    simp [List.dropWhile_cons, ha]

theorem suffix_getLast?_eq {s l : List Char} (h : s <:+ l) (hne : s ≠ []) :
    s.getLast? = l.getLast? := by
  obtain ⟨t, rfl⟩ := h
  exact (List.getLast?_append_of_ne_nil t hne).symm

theorem trimEndList_idem (m : List Char) : trimEndList (trimEndList m) = trimEndList m := by
  unfold trimEndList
  rw [List.reverse_reverse, dropWhile_isJsSpace_idem]

theorem jsTrimList_head? (l : List Char) (a : Char)
    (h : (jsTrimList l).head? = some a) : isJsSpace a = false := by
  unfold jsTrimList trimEndList at h
  set d := List.dropWhile isJsSpace l with hd
  set u := List.dropWhile isJsSpace d.reverse with hu
  rw [List.head?_reverse] at h
  have hune : u ≠ [] := by
    intro hnil
    rw [hnil] at h
    simp at h
  have h1 : u.getLast? = d.reverse.getLast? :=
    suffix_getLast?_eq (hu ▸ List.dropWhile_suffix isJsSpace) hune
  rw [h1, List.getLast?_reverse] at h
  exact dropWhile_isJsSpace_head? l a (hd ▸ h)

theorem jsTrimList_dropWhile (l : List Char) :
    List.dropWhile isJsSpace (jsTrimList l) = jsTrimList l :=
  dropWhile_eq_self_of_head? _ (jsTrimList_head? l)

theorem jsTrimList_idem (l : List Char) : jsTrimList (jsTrimList l) = jsTrimList l := by
  show trimEndList (List.dropWhile isJsSpace (jsTrimList l)) = jsTrimList l
  rw [jsTrimList_dropWhile]
  show trimEndList (trimEndList (List.dropWhile isJsSpace l)) = jsTrimList l
  rw [trimEndList_idem]
  rfl

theorem jsTrim_idem (s : String) : jsTrim (jsTrim s) = jsTrim s := by
  cases s with
  | mk l =>
    show (⟨jsTrimList (jsTrimList l)⟩ : String) = ⟨jsTrimList l⟩
    rw [jsTrimList_idem]

theorem jsTrimList_length_le (l : List Char) : (jsTrimList l).length ≤ l.length := by
  unfold jsTrimList trimEndList
  calc (List.dropWhile isJsSpace (List.dropWhile isJsSpace l).reverse).reverse.length
      = (List.dropWhile isJsSpace (List.dropWhile isJsSpace l).reverse).length := by
        rw [List.length_reverse]
    _ ≤ (List.dropWhile isJsSpace l).reverse.length :=
        (List.dropWhile_suffix isJsSpace).sublist.length_le
    _ = (List.dropWhile isJsSpace l).length := by rw [List.length_reverse]
    _ ≤ l.length := (List.dropWhile_suffix isJsSpace).sublist.length_le

theorem jsTrim_length_le (s : String) : (jsTrim s).length ≤ s.length := by
  cases s with
  | mk l => exact jsTrimList_length_le l

/-! ## Helper lemmas: the output-cap scan -/

theorem capScan_error_cases :
    ∀ (evs : List ProcEvent) (so se e : String), capScan evs so se = .error e →
      e = "Output size exceeded limit" ∨ e = "Error output size exceeded limit" := by
  intro evs
  induction evs with
  | nil => intro so se e h; simp [capScan] at h
  | cons ev rest ih =>
    intro so se e h
    cases ev with
    | out d =>
      rw [capScan] at h
      split at h
      · exact Or.inl (Except.error.inj h).symm
      · exact ih _ _ _ h
    | err d =>
      rw [capScan] at h
      split at h
      · exact Or.inr (Except.error.inj h).symm
      · exact ih _ _ _ h

theorem capScan_ok_le :
    ∀ (evs : List ProcEvent) (so se o oe : String),
      so.length ≤ MAX_OUTPUT_SIZE → se.length ≤ MAX_OUTPUT_SIZE →
      capScan evs so se = .ok (o, oe) →
      o.length ≤ MAX_OUTPUT_SIZE ∧ oe.length ≤ MAX_OUTPUT_SIZE := by
  intro evs
  induction evs with
  | nil =>
    intro so se o oe hso hse h
    rw [capScan] at h
    simp at h
    rw [← h.1, ← h.2]
    exact ⟨hso, hse⟩
  | cons ev rest ih =>
    intro so se o oe hso hse h
    cases ev with
    | out d =>
      rw [capScan] at h
      split at h
      · exact absurd h (by simp)
      · next hle => exact ih _ _ _ _ (Nat.le_of_not_lt hle) hse h
    | err d =>
      rw [capScan] at h
      split at h
      · exact absurd h (by simp)
      · next hle => exact ih _ _ _ _ hso (Nat.le_of_not_lt hle) h

theorem capScan_out_exceeds :
    ∀ (evs : List ProcEvent) (so se : String),
      so.length ≤ MAX_OUTPUT_SIZE →
      se.length + errTotal evs ≤ MAX_OUTPUT_SIZE →
      MAX_OUTPUT_SIZE < so.length + outTotal evs →
      capScan evs so se = .error "Output size exceeded limit" := by
  intro evs
  induction evs with
  | nil =>
    intro so se hso hse hgt
    rw [outTotal] at hgt
    omega
  | cons ev rest ih =>
    intro so se hso hse hgt
    cases ev with
    | out d =>
      rw [capScan]
      split
      · rfl
      · next hle =>
        refine ih _ _ (Nat.le_of_not_lt hle) ?_ ?_
        · rw [errTotal] at hse; exact hse
        · rw [String.length_append]
          rw [outTotal] at hgt
          omega
    | err d =>
      rw [capScan]
      have hse2 : (se ++ d).length ≤ MAX_OUTPUT_SIZE := by
        rw [String.length_append]
        rw [errTotal] at hse
        omega
      split
      · next hgt2 => omega
      · refine ih _ _ hso ?_ ?_
        · rw [String.length_append]
          rw [errTotal] at hse
          omega
        · rw [outTotal] at hgt; exact hgt

theorem capScan_err_exceeds :
    ∀ (evs : List ProcEvent) (so se : String),
      se.length ≤ MAX_OUTPUT_SIZE →
      so.length + outTotal evs ≤ MAX_OUTPUT_SIZE →
      MAX_OUTPUT_SIZE < se.length + errTotal evs →
      capScan evs so se = .error "Error output size exceeded limit" := by
  intro evs
  induction evs with
  | nil =>
    intro so se hse hso hgt
    rw [errTotal] at hgt
    omega
  | cons ev rest ih =>
    intro so se hse hso hgt
    cases ev with
    | out d =>
      rw [capScan]
      have hso2 : (so ++ d).length ≤ MAX_OUTPUT_SIZE := by
        rw [String.length_append]
        rw [outTotal] at hso
        omega
      split
      · next hgt2 => omega
      · refine ih _ _ hse ?_ ?_
        · rw [String.length_append]
          rw [outTotal] at hso
          omega
        · rw [errTotal] at hgt; exact hgt
    | err d =>
      rw [capScan]
      split
      · rfl
      · next hle =>
        refine ih _ _ (Nat.le_of_not_lt hle) ?_ ?_
        · rw [outTotal] at hso; exact hso
        · rw [String.length_append]
          rw [errTotal] at hgt
          omega

/-! ## Helper lemmas: runCommand -/

theorem runCommand_ok_bounds (command : String) (args : List String) (cwd input : String)
    (timeout : Nat) (b : ProcBehavior) (r : CommandResult)
    (h : runCommand command args cwd input timeout b = .ok r) :
    r.stdout.length ≤ MAX_OUTPUT_SIZE ∧ r.stderr.length ≤ MAX_OUTPUT_SIZE := by
  rw [runCommand] at h
  cases hscan : capScan b.events "" "" with
  | error e => rw [hscan] at h; simp at h
  | ok p =>
    obtain ⟨so, se⟩ := p
    rw [hscan] at h
    have hb : so.length ≤ MAX_OUTPUT_SIZE ∧ se.length ≤ MAX_OUTPUT_SIZE :=
      capScan_ok_le b.events "" "" so se (by simp) (by simp) hscan
    cases hend : b.ending with
    | closed code =>
      rw [hend] at h
      simp at h
      rw [← h]
      exact ⟨le_trans (jsTrim_length_le so) hb.1, le_trans (jsTrim_length_le se) hb.2⟩
    | timedOut => rw [hend] at h; simp at h
    | errored msg => rw [hend] at h; simp at h

theorem runCommand_error_cases (command : String) (args : List String) (cwd input : String)
    (timeout : Nat) (b : ProcBehavior) (e : String)
    (h : runCommand command args cwd input timeout b = .error e) :
    e = "Output size exceeded limit" ∨ e = "Error output size exceeded limit" ∨
      e = "Execution timeout" ∨ b.ending = .errored e := by
  rw [runCommand] at h
  cases hscan : capScan b.events "" "" with
  | error e2 =>
    rw [hscan] at h
    simp at h
    rcases capScan_error_cases b.events "" "" _ hscan with h1 | h1
    · exact Or.inl (h ▸ h1)
    · exact Or.inr (Or.inl (h ▸ h1))
  | ok p =>
    obtain ⟨so, se⟩ := p
    rw [hscan] at h
    cases hend : b.ending with
    | closed code => rw [hend] at h; simp at h
    | timedOut =>
      rw [hend] at h
      simp at h
      exact Or.inr (Or.inr (Or.inl h.symm))
    | errored msg =>
      rw [hend] at h
      simp at h
      exact Or.inr (Or.inr (Or.inr (by rw [h])))

/-! ## Helper lemmas: replaceFirst -/

theorem replaceFirst_no_occur (pat repl : List Char) :
    ∀ s : List Char, occursIn pat s = false → replaceFirst s pat repl = s := by
  intro s
  induction s with
  | nil =>
    intro h
    rw [occursIn] at h
    rw [replaceFirst]
    cases pat with
    | nil => exact absurd h (by decide)
    | cons a t => simp
  | cons c rest ih =>
    intro h
    rw [occursIn] at h
    rw [Bool.or_eq_false_iff] at h
    rw [replaceFirst, h.1]
    simp
    exact ih h.2

theorem noMatchBefore_cons (pat : List Char) (c : Char) (s : List Char) (k : Nat)
    (h : noMatchBefore pat (c :: s) (k + 1) = true) :
    pat.isPrefixOf (c :: s) = false ∧ noMatchBefore pat s k = true := by
  rw [noMatchBefore, List.tail_cons, Bool.and_eq_true, Bool.not_eq_true'] at h
  exact h

theorem replaceFirst_at :
    ∀ (a pat b repl : List Char), pat ≠ [] →
      noMatchBefore pat (a ++ (pat ++ b)) a.length = true →
      replaceFirst (a ++ (pat ++ b)) pat repl = a ++ (repl ++ b) := by
  intro a
  induction a with
  | nil =>
    intro pat b repl hne h
    simp only [List.nil_append]
    cases pat with
    | nil => exact absurd rfl hne
    | cons p0 pt =>
      rw [List.cons_append, replaceFirst]
      have hpre : (p0 :: pt).isPrefixOf (p0 :: (pt ++ b)) = true := by
        rw [List.isPrefixOf_iff_prefix, ← List.cons_append]
        exact List.prefix_append _ _
      rw [if_pos hpre]
      have hdrop : (p0 :: (pt ++ b)).drop (p0 :: pt).length = b := by
        rw [← List.cons_append]
        exact List.drop_left _ _
      rw [hdrop]
  | cons a0 arest ih =>
    intro pat b repl hne h
    rw [List.cons_append, List.length_cons] at h
    obtain ⟨h0, hrest⟩ := noMatchBefore_cons pat a0 (arest ++ (pat ++ b)) arest.length h
    rw [List.cons_append, replaceFirst, h0]
    simp only [Bool.false_eq_true, if_false]
    rw [ih pat b repl hne hrest]
    simp

/-! ## Helper lemmas: the test-case loop -/

theorem testLoop_eq_mapIdx (env : ExecEnv) (cfg : LanguageConfig) (fp sd fn : String) :
    ∀ (l : List TestCase) (i : Nat),
      testLoop env cfg fp sd fn l i =
        l.mapIdx (fun j tc => runOneCase env cfg fp sd fn tc (i + j)) := by
  intro l
  induction l with
  | nil => intro i; rfl
  | cons tc rest ih =>
    intro i
    rw [testLoop, List.mapIdx_cons, ih (i + 1)]
    have harg : (fun j (tc2 : TestCase) => runOneCase env cfg fp sd fn tc2 (i + 1 + j)) =
        (fun j tc2 => runOneCase env cfg fp sd fn tc2 (i + (j + 1))) := by
      funext j tc2
      congr 1
      omega
    rw [harg]
    simp

/-! ## Helper lemmas: the compile stage and the executor body -/

theorem compfail_ne_empty (s : String) : "Compilation failed: " ++ s ≠ "" := by
  intro heq
  have hlen := congrArg String.length heq
  rw [String.length_append] at hlen
  have h20 : ("Compilation failed: " : String).length = 20 := by decide
  have h0 : ("" : String).length = 0 := by decide
  omega

theorem cacheProbe_error (env : ExecEnv) (cfg : LanguageConfig) (e : String)
    (h : cacheProbe env cfg = .error e) : env.copyHit = .error e := by
  cases hc : env.copyHit with
  | error e2 =>
    unfold cacheProbe at h
    rw [hc] at h
    split_ifs at h <;> simp_all
  | ok u =>
    unfold cacheProbe at h
    rw [hc] at h
    split_ifs at h <;> simp_all

theorem compileStage_error (env : ExecEnv) (cfg : LanguageConfig)
    (fp sd fn code e : String)
    (h : compileStage env cfg fp sd fn code = .error e) :
    env.copyHit = .error e ∨
      (∃ cc : CompileConfig, cfg.compile = some cc ∧
        runCommand cc.command (cc.args.map fun arg => substituteArg arg fp sd fn) sd ""
          (jsOrNat cc.timeout 10000) env.compileRun = .error e) := by
  cases hcc : cfg.compile with
  | none =>
    simp only [compileStage, hcc] at h
    simp at h
  | some cc =>
    simp only [compileStage, hcc] at h
    cases hp : cacheProbe env cfg with
    | error e2 =>
      simp only [hp] at h
      exact Or.inl (Except.error.inj h ▸ cacheProbe_error env cfg e2 hp)
    | ok hit =>
      simp only [hp] at h
      cases hit with
      | true => simp at h
      | false =>
        simp only [] at h
        cases hr : runCommand cc.command (cc.args.map fun arg => substituteArg arg fp sd fn) sd ""
            (jsOrNat cc.timeout 10000) env.compileRun with
        | error e2 =>
          simp only [hr] at h
          exact Or.inr ⟨cc, rfl, Except.error.inj h ▸ hr⟩
        | ok cr =>
          simp only [hr] at h
          split_ifs at h <;> simp_all

theorem compileStage_some (env : ExecEnv) (cfg : LanguageConfig)
    (fp sd fn code : String) (res : ExecutionResult)
    (h : compileStage env cfg fp sd fn code = .ok (some res)) :
    ∃ s, res = { output := ""
                 error := "Compilation failed: " ++ s
                 executionTime := env.tCompileFail - env.tStart
                 status := .error
                 testCases := none } := by
  cases hcc : cfg.compile with
  | none => simp only [compileStage, hcc] at h; simp at h
  | some cc =>
    simp only [compileStage, hcc] at h
    cases hp : cacheProbe env cfg with
    | error e2 => simp only [hp] at h; simp at h
    | ok hit =>
      simp only [hp] at h
      cases hit with
      | true => simp at h
      | false =>
        simp only [] at h
        cases hr : runCommand cc.command (cc.args.map fun arg => substituteArg arg fp sd fn) sd ""
            (jsOrNat cc.timeout 10000) env.compileRun with
        | error e2 => simp only [hr] at h; simp at h
        | ok cr =>
          simp only [hr] at h
          split_ifs at h with hx
          · simp at h
            exact ⟨jsOrString cr.stderr cr.stdout, h.symm⟩
          · simp at h

theorem executeBody_error_msgs (env : ExecEnv) (cfg : LanguageConfig)
    (code input : String) (tcs : Option (List TestCase)) (e : String)
    (hne : EnvMsgsNonempty env)
    (h : executeBody env cfg code input tcs = .error e) : e ≠ "" := by
  obtain ⟨h1, h2, h3, h4, h5, h6⟩ := hne
  cases hmk : env.mkdirSession with
  | error e2 =>
    simp only [executeBody, hmk] at h
    exact Except.error.inj h ▸ h1 e2 hmk
  | ok u =>
    simp only [executeBody, hmk] at h
    cases hwr : env.writeSource with
    | error e2 =>
      simp only [hwr] at h
      exact Except.error.inj h ▸ h2 e2 hwr
    | ok u2 =>
      simp only [hwr] at h
      cases hcs : compileStage env cfg (filepathOf env cfg) (sessionDirOf env) (filenameOf cfg) code with
      | error e2 =>
        simp only [hcs] at h
        have he : e2 = e := Except.error.inj h
        subst he
        rcases compileStage_error env cfg _ _ _ code e2 hcs with hcopy | ⟨cc, hcc, hrun⟩
        · exact h3 e2 hcopy
        · rcases runCommand_error_cases _ _ _ _ _ _ _ hrun with h' | h' | h' | h'
          · rw [h']; decide
          · rw [h']; decide
          · rw [h']; decide
          · exact h4 e2 h'
      | ok o =>
        simp only [hcs] at h
        cases o with
        | some res => simp at h
        | none =>
          cases tcs with
          | none =>
            simp only [] at h
            cases hr : runCommand cfg.command
                (cfg.args.map fun arg =>
                  substituteArg arg (filepathOf env cfg) (sessionDirOf env) (filenameOf cfg))
                (sessionDirOf env) input cfg.timeout env.singleRun with
            | error e2 =>
              simp only [hr] at h
              have he : e2 = e := Except.error.inj h
              subst he
              rcases runCommand_error_cases _ _ _ _ _ _ _ hr with h' | h' | h' | h'
              · rw [h']; decide
              · rw [h']; decide
              · rw [h']; decide
              · exact h6 e2 h'
            | ok r => simp only [hr] at h; simp at h
          | some l =>
            cases l with
            | nil =>
              simp only [] at h
              cases hr : runCommand cfg.command
                  (cfg.args.map fun arg =>
                    substituteArg arg (filepathOf env cfg) (sessionDirOf env) (filenameOf cfg))
                  (sessionDirOf env) input cfg.timeout env.singleRun with
              | error e2 =>
                simp only [hr] at h
                have he : e2 = e := Except.error.inj h
                subst he
                rcases runCommand_error_cases _ _ _ _ _ _ _ hr with h' | h' | h' | h'
                · rw [h']; decide
                · rw [h']; decide
                · rw [h']; decide
                · exact h6 e2 h'
              | ok r => simp only [hr] at h; simp at h
            | cons tc rest => simp at h

theorem executeBody_ok_error_field (env : ExecEnv) (cfg : LanguageConfig)
    (code input : String) (tcs : Option (List TestCase)) (r : ExecutionResult)
    (h : executeBody env cfg code input tcs = .ok r)
    (hst : r.status = ExecStatus.error) : r.error ≠ "" := by
  cases hmk : env.mkdirSession with
  | error e2 => simp only [executeBody, hmk] at h; simp at h
  | ok u =>
    simp only [executeBody, hmk] at h
    cases hwr : env.writeSource with
    | error e2 => simp only [hwr] at h; simp at h
    | ok u2 =>
      simp only [hwr] at h
      cases hcs : compileStage env cfg (filepathOf env cfg) (sessionDirOf env) (filenameOf cfg) code with
      | error e2 => simp only [hcs] at h; simp at h
      | ok o =>
        simp only [hcs] at h
        cases o with
        | some res =>
          simp at h
          obtain ⟨s, hs⟩ := compileStage_some env cfg _ _ _ code res hcs
          rw [← h, hs]
          exact compfail_ne_empty s
        | none =>
          cases tcs with
          | none =>
            simp only [] at h
            cases hr : runCommand cfg.command
                (cfg.args.map fun arg =>
                  substituteArg arg (filepathOf env cfg) (sessionDirOf env) (filenameOf cfg))
                (sessionDirOf env) input cfg.timeout env.singleRun with
            | error e2 => simp only [hr] at h; simp at h
            | ok rr =>
              simp only [hr] at h
              simp at h
              rw [← h] at hst
              simp at hst
          | some l =>
            cases l with
            | nil =>
              simp only [] at h
              cases hr : runCommand cfg.command
                  (cfg.args.map fun arg =>
                    substituteArg arg (filepathOf env cfg) (sessionDirOf env) (filenameOf cfg))
                  (sessionDirOf env) input cfg.timeout env.singleRun with
              | error e2 => simp only [hr] at h; simp at h
              | ok rr =>
                simp only [hr] at h
                simp at h
                rw [← h] at hst
                simp at hst
            | cons tc rest =>
              simp at h
              rw [← h] at hst
              simp at hst

theorem compileStage_fail_result (env : ExecEnv) (cfg : LanguageConfig)
    (code : String) (cc : CompileConfig) (cr : CommandResult)
    (hcc : cfg.compile = some cc)
    (hprobe : cacheProbe env cfg = .ok false)
    (hrun : runCommand cc.command
        (cc.args.map fun arg =>
          substituteArg arg (filepathOf env cfg) (sessionDirOf env) (filenameOf cfg))
        (sessionDirOf env) "" (jsOrNat cc.timeout 10000) env.compileRun = .ok cr)
    (hexit : cr.exitCode ≠ 0) :
    compileStage env cfg (filepathOf env cfg) (sessionDirOf env) (filenameOf cfg) code =
      .ok (some { output := ""
                  error := "Compilation failed: " ++ jsOrString cr.stderr cr.stdout
                  executionTime := env.tCompileFail - env.tStart
                  status := .error
                  testCases := none }) := by
  simp only [compileStage, hcc, hprobe, hrun]
  rw [if_pos hexit]

theorem executeBody_compile_fail (env : ExecEnv) (cfg : LanguageConfig)
    (code input : String) (tcs : Option (List TestCase)) (cc : CompileConfig) (cr : CommandResult)
    (hcc : cfg.compile = some cc)
    (hmk : env.mkdirSession = .ok ())
    (hwr : env.writeSource = .ok ())
    (hprobe : cacheProbe env cfg = .ok false)
    (hrun : runCommand cc.command
        (cc.args.map fun arg =>
          substituteArg arg (filepathOf env cfg) (sessionDirOf env) (filenameOf cfg))
        (sessionDirOf env) "" (jsOrNat cc.timeout 10000) env.compileRun = .ok cr)
    (hexit : cr.exitCode ≠ 0) :
    executeBody env cfg code input tcs =
      .ok { output := ""
            error := "Compilation failed: " ++ jsOrString cr.stderr cr.stdout
            executionTime := env.tCompileFail - env.tStart
            status := .error
            testCases := none } := by
  have hcs := compileStage_fail_result env cfg code cc cr hcc hprobe hrun hexit
  simp only [executeBody, hmk, hwr, hcs]

theorem executeBody_test_branch (env : ExecEnv) (cfg : LanguageConfig)
    (code input : String) (tc : TestCase) (rest : List TestCase)
    (hmk : env.mkdirSession = .ok ())
    (hwr : env.writeSource = .ok ())
    (hcs : compileStage env cfg (filepathOf env cfg) (sessionDirOf env) (filenameOf cfg) code =
      .ok none) :
    executeBody env cfg code input (some (tc :: rest)) =
      .ok { output := ""
            error := ""
            executionTime := env.tFinal - env.tStart
            status := .success
            testCases := some (testLoop env cfg (filepathOf env cfg) (sessionDirOf env)
              (filenameOf cfg) (tc :: rest) 0) } := by
  simp only [executeBody, hmk, hwr, hcs]

theorem executeBody_single_run (env : ExecEnv) (cfg : LanguageConfig)
    (code input : String) (r : CommandResult)
    (hmk : env.mkdirSession = .ok ())
    (hwr : env.writeSource = .ok ())
    (hcs : compileStage env cfg (filepathOf env cfg) (sessionDirOf env) (filenameOf cfg) code =
      .ok none)
    (hrun : runCommand cfg.command
        (cfg.args.map fun arg =>
          substituteArg arg (filepathOf env cfg) (sessionDirOf env) (filenameOf cfg))
        (sessionDirOf env) input cfg.timeout env.singleRun = .ok r) :
    executeBody env cfg code input none =
      .ok { output := r.stdout
            error := r.stderr
            executionTime := env.tFinal - env.tStart
            status := .success
            testCases := none } := by
  simp only [executeBody, hmk, hwr, hcs, hrun]

theorem executeCode_of_body_ok (env : ExecEnv) (reg : String → Option LanguageConfig)
    (code language input : String) (tcs : Option (List TestCase))
    (cfg : LanguageConfig) (r : ExecutionResult)
    (hreg : reg language = some cfg)
    (hbody : executeBody env cfg code input tcs = .ok r) :
    executeCode env reg code language input tcs = .ok r := by
  simp only [executeCode, hreg, hbody]

/-! ## Shared witness helpers -/

theorem bigChunk_length : bigChunk.length = MAX_OUTPUT_SIZE + 1 := by
  show (List.replicate (MAX_OUTPUT_SIZE + 1) 'a').length = MAX_OUTPUT_SIZE + 1
  exact List.length_replicate _ _

theorem env0_msgs : EnvMsgsNonempty env0 :=
  ⟨fun e h => by simp [env0] at h,
   fun e h => by simp [env0] at h,
   fun e h => by simp [env0] at h,
   fun m h => by simp [env0] at h,
   fun i m h => by simp [env0] at h,
   fun m h => by simp [env0] at h⟩

theorem envTimeout_msgs : EnvMsgsNonempty envTimeout :=
  ⟨fun e h => by simp [envTimeout, env0] at h,
   fun e h => by simp [envTimeout, env0] at h,
   fun e h => by simp [envTimeout, env0] at h,
   fun m h => by simp [envTimeout, env0] at h,
   fun i m h => by simp [envTimeout, env0] at h,
   fun m h => by simp [envTimeout, env0] at h⟩

theorem runCommand_closed (command : String) (args : List String) (cwd input : String)
    (timeout : Nat) (events : List ProcEvent) (exitc : Option Int) (so se : String)
    (hscan : capScan events "" "" = .ok (so, se)) :
    runCommand command args cwd input timeout ⟨events, .closed exitc⟩ =
      .ok ⟨jsTrim so, jsTrim se, jsOrExit exitc⟩ := by
  rw [runCommand]
  simp only [hscan]

/-! ## Claim C3 -/

/-- C3 counterexample: the cache key is the hash of a different byte string
than the one the spec describes. At a concrete compiled-language descriptor
the preimage actually hashed differs from the spec's
name ‖ 0x0A ‖ command ‖ " " ‖ join(args, " ") ‖ 0x0A ‖ source format, so the
digests of these distinct strings cannot coincide for a collision-resistant
hash. -/
theorem cacheKeyInput_ne_spec :
    cacheKeyInput cfgCompiled { command := "rustc", args := ["{file}"], timeout := 10000 } "src" ≠
      specCacheKeyInput cfgCompiled { command := "rustc", args := ["{file}"], timeout := 10000 }
        "src" := by
  decide

/-- C3 (amended): the compile-cache key is the sha256 digest of the byte
string: language name, then a 0x3A colon, then the compile command, a 0x3A
colon, and the compile args joined by single spaces, then a 0x0A byte, then
the source bytes. -/
theorem cacheKeyInput_format (cfg : LanguageConfig) (cc : CompileConfig) (code : String) :
    cacheKeyInput cfg cc code =
      cfg.name ++ ":" ++ cc.command ++ ":" ++ String.intercalate " " cc.args ++ "\n" ++ code :=
  rfl

/-! ## Claim C8 -/

/-- C8: for the multi-instance languages (python, java) the dispatcher picks
the instance queue with the strictly smallest waiting count, ties going to
the earlier instance in the fixed order; the selected queue's waiting count
is minimal; for single-instance languages the single queue is returned
without reading any waiting count (the selection does not depend on the
waiting function at all). -/
theorem selectContainer_least_waiting (waiting : String → Nat) :
    (selectContainer waiting "python" =
      .ok (if waiting "python-2" < waiting "python-1" then "python-2" else "python-1")) ∧
    (selectContainer waiting "java" =
      .ok (if waiting "java-2" < waiting "java-1" then "java-2" else "java-1")) ∧
    (∀ c, selectContainer waiting "python" = .ok c →
      waiting c ≤ waiting "python-1" ∧ waiting c ≤ waiting "python-2") ∧
    (∀ c, selectContainer waiting "java" = .ok c →
      waiting c ≤ waiting "java-1" ∧ waiting c ≤ waiting "java-2") ∧
    (∀ w2 : String → Nat,
      selectContainer waiting "javascript" = selectContainer w2 "javascript" ∧
      selectContainer waiting "cpp" = selectContainer w2 "cpp" ∧
      selectContainer waiting "go" = selectContainer w2 "go") ∧
    selectContainer waiting "javascript" = .ok "javascript-1" ∧
    selectContainer waiting "cpp" = .ok "cpp-1" ∧
    selectContainer waiting "go" = .ok "go-1" := by
  have hgpy : getContainersForLanguage "python" = .ok ["python-1", "python-2"] := rfl
  have hgja : getContainersForLanguage "java" = .ok ["java-1", "java-2"] := rfl
  have hgjs : getContainersForLanguage "javascript" = .ok ["javascript-1"] := rfl
  have hgcpp : getContainersForLanguage "cpp" = .ok ["cpp-1"] := rfl
  have hggo : getContainersForLanguage "go" = .ok ["go-1"] := rfl
  have hpy : selectContainer waiting "python" =
      .ok (if waiting "python-2" < waiting "python-1" then "python-2" else "python-1") := by
    simp [selectContainer, hgpy, selectLoop]
  have hja : selectContainer waiting "java" =
      .ok (if waiting "java-2" < waiting "java-1" then "java-2" else "java-1") := by
    simp [selectContainer, hgja, selectLoop]
  refine ⟨hpy, hja, ?_, ?_, ?_, ?_, ?_, ?_⟩
  · intro c hc
    rw [hpy] at hc
    have hc2 := Except.ok.inj hc
    split_ifs at hc2 with hx
    · rw [← hc2]; omega
    · rw [← hc2]; omega
  · intro c hc
    rw [hja] at hc
    have hc2 := Except.ok.inj hc
    split_ifs at hc2 with hx
    · rw [← hc2]; omega
    · rw [← hc2]; omega
  · intro w2
    exact ⟨by simp [selectContainer, hgjs], by simp [selectContainer, hgcpp],
      by simp [selectContainer, hggo]⟩
  · simp [selectContainer, hgjs]
  · simp [selectContainer, hgcpp]
  · simp [selectContainer, hggo]

/-- C8 witness: with python-2 empty and python-1 loaded, python-2 is selected
and its depth is minimal. -/
theorem selectContainer_least_waiting_witness :
    selectContainer (fun s => if s = "python-2" then (0 : Nat) else 3) "python" =
      .ok "python-2" ∧
    (fun s => if s = "python-2" then (0 : Nat) else 3) "python-2" ≤
      (fun s => if s = "python-2" then (0 : Nat) else 3) "python-1" := by
  have h := selectContainer_least_waiting (fun s => if s = "python-2" then (0 : Nat) else 3)
  have h1 : selectContainer (fun s => if s = "python-2" then (0 : Nat) else 3) "python" =
      .ok "python-2" := by
    rw [h.1]
    simp
  exact ⟨h1, (h.2.2.1 "python-2" h1).1⟩

/-! ## Claim C4 -/

/-- C4 counterexample: when the stderr stream exceeds 1 MiB the run is
rejected with "Error output size exceeded limit", not with the claimed
"Output size exceeded limit" (which only the stdout stream produces). -/
theorem runCommand_stderr_cap_message :
    runCommand "cmd" [] "/tmp/w" "" 1000 ⟨[ProcEvent.err bigChunk], ProcEnding.closed (some 0)⟩ =
      .error "Error output size exceeded limit" ∧
    "Error output size exceeded limit" ≠ "Output size exceeded limit" := by
  constructor
  · have hscan : capScan [ProcEvent.err bigChunk] "" "" =
        .error "Error output size exceeded limit" := by
      refine capScan_err_exceeds [ProcEvent.err bigChunk] "" "" (by simp) ?_ ?_
      · simp [outTotal]
      · have h1 : ("" : String).length = 0 := rfl
        rw [errTotal, errTotal, bigChunk_length, h1]
        omega
    have hb : (⟨[ProcEvent.err bigChunk], ProcEnding.closed (some 0)⟩ : ProcBehavior).events =
        [ProcEvent.err bigChunk] := rfl
    rw [runCommand, hb, hscan]
  · intro h
    simp at h

/-- C4 (amended): every resolved result's stdout and stderr are at most 1 MiB
long; a run whose stdout stream exceeds the cap (stderr staying within it)
is killed and rejected with "Output size exceeded limit", and a run whose
stderr stream exceeds the cap (stdout staying within it) is killed and
rejected with "Error output size exceeded limit". -/
theorem runCommand_output_caps (command : String) (args : List String) (cwd input : String)
    (timeout : Nat) (b : ProcBehavior) :
    (∀ r, runCommand command args cwd input timeout b = .ok r →
      r.stdout.length ≤ MAX_OUTPUT_SIZE ∧ r.stderr.length ≤ MAX_OUTPUT_SIZE) ∧
    (MAX_OUTPUT_SIZE < outTotal b.events → errTotal b.events ≤ MAX_OUTPUT_SIZE →
      runCommand command args cwd input timeout b = .error "Output size exceeded limit") ∧
    (MAX_OUTPUT_SIZE < errTotal b.events → outTotal b.events ≤ MAX_OUTPUT_SIZE →
      runCommand command args cwd input timeout b = .error "Error output size exceeded limit") := by
  refine ⟨fun r h => runCommand_ok_bounds command args cwd input timeout b r h, ?_, ?_⟩
  · intro hgt hle
    have hscan := capScan_out_exceeds b.events "" "" (by simp) (by simpa using hle)
      (by simpa using hgt)
    rw [runCommand]
    simp only [hscan]
  · intro hgt hle
    have hscan := capScan_err_exceeds b.events "" "" (by simp) (by simpa using hle)
      (by simpa using hgt)
    rw [runCommand]
    simp only [hscan]

/-- C4 witness: a single oversized stdout chunk is rejected with the stdout
cap message, and an empty run resolves within the bounds. -/
theorem runCommand_output_caps_witness :
    runCommand "cmd" [] "/tmp/w" "" 1000 ⟨[ProcEvent.out bigChunk], ProcEnding.closed (some 0)⟩ =
      .error "Output size exceeded limit" ∧
    ("" : String).length ≤ MAX_OUTPUT_SIZE ∧ ("" : String).length ≤ MAX_OUTPUT_SIZE := by
  constructor
  · exact (runCommand_output_caps "cmd" [] "/tmp/w" "" 1000
      ⟨[ProcEvent.out bigChunk], ProcEnding.closed (some 0)⟩).2.1
      (by rw [outTotal, outTotal, bigChunk_length]; omega)
      (by simp [errTotal])
  · exact (runCommand_output_caps "cmd" [] "/tmp/w" "" 1000
      ⟨[], ProcEnding.closed (some 0)⟩).1 ⟨"", "", 0⟩
      (runCommand_closed "cmd" [] "/tmp/w" "" 1000 [] (some 0) "" "" rfl)

/-! ## Claim C6 -/

/-- C6: for a test case whose child process closes normally, the recorded
actualOutput is the whitespace-trimmed raw stdout of the run, and passed is
true exactly when that trimmed output equals the whitespace-trimmed expected
value, byte for byte. -/
theorem runOneCase_trim_and_compare (env : ExecEnv) (cfg : LanguageConfig)
    (fp sd fn : String) (tc : TestCase) (i : Nat)
    (events : List ProcEvent) (exitc : Option Int) (so se : String)
    (hb : env.testRun i = ⟨events, ProcEnding.closed exitc⟩)
    (hscan : capScan events "" "" = .ok (so, se)) :
    (runOneCase env cfg fp sd fn tc i).actualOutput = jsTrim so ∧
    ((runOneCase env cfg fp sd fn tc i).passed = true ↔ jsTrim so = jsTrim tc.expected) := by
  have hrun : runCommand cfg.command (cfg.args.map fun arg => substituteArg arg fp sd fn)
      sd tc.input cfg.timeout (env.testRun i) = .ok ⟨jsTrim so, jsTrim se, jsOrExit exitc⟩ := by
    rw [hb]
    exact runCommand_closed _ _ _ _ _ _ _ _ _ hscan
  simp only [runOneCase, hrun]
  refine ⟨jsTrim_idem so, ?_⟩
  rw [jsTrim_idem]
  exact beq_iff_eq

/-- C6 witness: an empty run yields the trimmed empty output and the
comparison against the trimmed expected value. -/
theorem runOneCase_trim_and_compare_witness :
    (runOneCase env0 cfgPython "fp" "sd" "fn" ⟨"", ""⟩ 0).actualOutput = jsTrim "" ∧
    ((runOneCase env0 cfgPython "fp" "sd" "fn" ⟨"", ""⟩ 0).passed = true ↔
      jsTrim "" = jsTrim ("" : String)) :=
  runOneCase_trim_and_compare env0 cfgPython "fp" "sd" "fn" ⟨"", ""⟩ 0 [] (some 0) "" "" rfl rfl

/-! ## Claim C7 -/

/-- C7 counterexample: a test case whose run completes (the child closes with
exit code 0) but writes to stderr still gets TestCaseResult.error set, to
the stderr text — error is not reserved for cases that failed to run. -/
theorem runOneCase_error_set_on_completed_run :
    runCommand cfgPython.command
      (cfgPython.args.map fun arg => substituteArg arg "fp" "sd" "fn")
      "sd" "" cfgPython.timeout (envStderr.testRun 0) =
      .ok { stdout := "", stderr := "boom", exitCode := 0 } ∧
    (runOneCase envStderr cfgPython "fp" "sd" "fn" ⟨"", ""⟩ 0).error = some "boom" := by
  constructor
  · rfl
  · rfl

/-- C7 (amended): TestCaseResult.error is `stderr || undefined` when the run
completes — absent exactly when the trimmed stderr is empty, otherwise the
stderr text — and it is the rejection message when the case failed to run. -/
theorem runOneCase_error_field (env : ExecEnv) (cfg : LanguageConfig)
    (fp sd fn : String) (tc : TestCase) (i : Nat) :
    (∀ r, runCommand cfg.command (cfg.args.map fun arg => substituteArg arg fp sd fn)
        sd tc.input cfg.timeout (env.testRun i) = .ok r →
      (runOneCase env cfg fp sd fn tc i).error =
        (if r.stderr = "" then none else some r.stderr)) ∧
    (∀ e, runCommand cfg.command (cfg.args.map fun arg => substituteArg arg fp sd fn)
        sd tc.input cfg.timeout (env.testRun i) = .error e →
      (runOneCase env cfg fp sd fn tc i).error = some e) := by
  constructor
  · intro r h
    simp only [runOneCase, h]
  · intro e h
    simp only [runOneCase, h]

/-- C7 witness: with a clean silent run the error field is absent. -/
theorem runOneCase_error_field_witness :
    (runOneCase env0 cfgPython "fp" "sd" "fn" ⟨"", ""⟩ 0).error = none := by
  have h := (runOneCase_error_field env0 cfgPython "fp" "sd" "fn" ⟨"", ""⟩ 0).1
    ⟨"", "", 0⟩ rfl
  simpa using h

/-! ## Claim C10 -/

/-- C10: the executor's argv substitution replaces only the first occurrence
of each token. For each of the three tokens: if the token's first occurrence
in the argument starts at position |a| (no match before it) and the
substituted values reintroduce no tokens, the result is the prefix, then the
replacement value, then the rest of the argument verbatim — so any later
occurrence of the same token (inside b) is left untouched. -/
theorem substituteArg_first_occurrence_only :
    (∀ a b f d n : List Char,
      noMatchBefore ("{file}".data) (a ++ ("{file}".data ++ b)) a.length = true →
      occursIn ("{dir}".data) (a ++ (f ++ b)) = false →
      occursIn ("{filename}".data) (a ++ (f ++ b)) = false →
      (substituteArg ⟨a ++ ("{file}".data ++ b)⟩ ⟨f⟩ ⟨d⟩ ⟨n⟩).data = a ++ (f ++ b)) ∧
    (∀ a b f d n : List Char,
      occursIn ("{file}".data) (a ++ ("{dir}".data ++ b)) = false →
      noMatchBefore ("{dir}".data) (a ++ ("{dir}".data ++ b)) a.length = true →
      occursIn ("{filename}".data) (a ++ (d ++ b)) = false →
      (substituteArg ⟨a ++ ("{dir}".data ++ b)⟩ ⟨f⟩ ⟨d⟩ ⟨n⟩).data = a ++ (d ++ b)) ∧
    (∀ a b f d n : List Char,
      occursIn ("{file}".data) (a ++ ("{filename}".data ++ b)) = false →
      occursIn ("{dir}".data) (a ++ ("{filename}".data ++ b)) = false →
      noMatchBefore ("{filename}".data) (a ++ ("{filename}".data ++ b)) a.length = true →
      (substituteArg ⟨a ++ ("{filename}".data ++ b)⟩ ⟨f⟩ ⟨d⟩ ⟨n⟩).data = a ++ (n ++ b)) := by
  refine ⟨?_, ?_, ?_⟩
  · intro a b f d n h1 h2 h3
    show replaceFirst (replaceFirst (replaceFirst (a ++ ("{file}".data ++ b))
      ("{file}".data) f) ("{dir}".data) d) ("{filename}".data) n = a ++ (f ++ b)
    rw [replaceFirst_at a ("{file}".data) b f (by decide) h1]
    rw [replaceFirst_no_occur _ _ _ h2, replaceFirst_no_occur _ _ _ h3]
  · intro a b f d n h1 h2 h3
    show replaceFirst (replaceFirst (replaceFirst (a ++ ("{dir}".data ++ b))
      ("{file}".data) f) ("{dir}".data) d) ("{filename}".data) n = a ++ (d ++ b)
    rw [replaceFirst_no_occur _ _ _ h1]
    rw [replaceFirst_at a ("{dir}".data) b d (by decide) h2]
    rw [replaceFirst_no_occur _ _ _ h3]
  · intro a b f d n h1 h2 h3
    show replaceFirst (replaceFirst (replaceFirst (a ++ ("{filename}".data ++ b))
      ("{file}".data) f) ("{dir}".data) d) ("{filename}".data) n = a ++ (n ++ b)
    rw [replaceFirst_no_occur _ _ _ h1, replaceFirst_no_occur _ _ _ h2]
    rw [replaceFirst_at a ("{filename}".data) b n (by decide) h3]

/-- C10 witness: an argument holding the file token twice has only its first
occurrence replaced; the second stays verbatim. -/
theorem substituteArg_first_occurrence_only_witness :
    (substituteArg ⟨"run ".data ++ ("{file}".data ++ " {file} end".data)⟩
      ⟨"/s/m.py".data⟩ ⟨"/tmp/x".data⟩ ⟨"m.py".data⟩).data =
      "run ".data ++ ("/s/m.py".data ++ " {file} end".data) :=
  (substituteArg_first_occurrence_only).1 "run ".data " {file} end".data
    "/s/m.py".data "/tmp/x".data "m.py".data (by decide) (by decide) (by decide)

/-! ## Claim C2 -/

/-- C2: when the language has a compile step, the cache misses, and the
compile child closes with a non-zero exit code, executeCode returns output
"", error "Compilation failed: " followed by the compile's trimmed stderr
(or its trimmed stdout when the stderr is empty), status error, and
executionTime equal to the wall clock read at the failure return minus the
wall clock read at entry; the run phase is never entered — the result does
not depend on the run-phase process behaviors at all. -/
theorem executeCode_compile_failure (env : ExecEnv) (reg : String → Option LanguageConfig)
    (code language input : String) (tcs : Option (List TestCase))
    (cfg : LanguageConfig) (cc : CompileConfig) (cr : CommandResult)
    (hreg : reg language = some cfg)
    (hcc : cfg.compile = some cc)
    (hmk : env.mkdirSession = .ok ())
    (hwr : env.writeSource = .ok ())
    (hprobe : cacheProbe env cfg = .ok false)
    (hrun : runCommand cc.command
        (cc.args.map fun arg =>
          substituteArg arg (filepathOf env cfg) (sessionDirOf env) (filenameOf cfg))
        (sessionDirOf env) "" (jsOrNat cc.timeout 10000) env.compileRun = .ok cr)
    (hexit : cr.exitCode ≠ 0) :
    executeCode env reg code language input tcs =
      .ok { output := ""
            error := "Compilation failed: " ++ jsOrString cr.stderr cr.stdout
            executionTime := env.tCompileFail - env.tStart
            status := .error
            testCases := none } ∧
    (∀ tr sr, executeCode { env with testRun := tr, singleRun := sr } reg code language input tcs =
      executeCode env reg code language input tcs) := by
  have hmain : executeCode env reg code language input tcs =
      .ok { output := ""
            error := "Compilation failed: " ++ jsOrString cr.stderr cr.stdout
            executionTime := env.tCompileFail - env.tStart
            status := .error
            testCases := none } :=
    executeCode_of_body_ok env reg code language input tcs cfg _ hreg
      (executeBody_compile_fail env cfg code input tcs cc cr hcc hmk hwr hprobe hrun hexit)
  refine ⟨hmain, fun tr sr => ?_⟩
  have hmk2 : ({ env with testRun := tr, singleRun := sr } : ExecEnv).mkdirSession = .ok () := hmk
  have hwr2 : ({ env with testRun := tr, singleRun := sr } : ExecEnv).writeSource = .ok () := hwr
  have hprobe2 : cacheProbe { env with testRun := tr, singleRun := sr } cfg = .ok false := hprobe
  have hrun2 : runCommand cc.command
      (cc.args.map fun arg =>
        substituteArg arg (filepathOf { env with testRun := tr, singleRun := sr } cfg)
          (sessionDirOf { env with testRun := tr, singleRun := sr }) (filenameOf cfg))
      (sessionDirOf { env with testRun := tr, singleRun := sr }) ""
      (jsOrNat cc.timeout 10000)
      ({ env with testRun := tr, singleRun := sr } : ExecEnv).compileRun = .ok cr := hrun
  have hother : executeCode { env with testRun := tr, singleRun := sr } reg code language input tcs =
      .ok { output := ""
            error := "Compilation failed: " ++ jsOrString cr.stderr cr.stdout
            executionTime := env.tCompileFail - env.tStart
            status := .error
            testCases := none } :=
    executeCode_of_body_ok _ reg code language input tcs cfg _ hreg
      (executeBody_compile_fail { env with testRun := tr, singleRun := sr } cfg code input tcs
        cc cr hcc hmk2 hwr2 hprobe2 hrun2 hexit)
  rw [hother, hmain]

/-- C2 witness: a compile exiting 1 with no output yields the compile-failure
result. -/
theorem executeCode_compile_failure_witness :
    executeCode envCompileFail regW "fn main()" "rust" "" none =
      .ok { output := ""
            error := "Compilation failed: "
            executionTime := 0
            status := .error
            testCases := none } := by
  have h := (executeCode_compile_failure envCompileFail regW "fn main()" "rust" "" none
    cfgCompiled { command := "rustc", args := ["{file}"], timeout := 10000 } ⟨"", "", 1⟩
    rfl rfl rfl rfl rfl rfl (by decide)).1
  simpa [jsOrString, envCompileFail, env0] using h

/-! ## Claim C9 -/

/-- C9: in single-run mode, whenever the child spawns and closes within the
timeout and output caps, executeCode returns status success no matter what
the exit code was — the result only carries the child's trimmed stdout as
output and trimmed stderr as error — and a null exit code is normalized
to 0 by runCommand. -/
theorem executeCode_single_run_ignores_exit (env : ExecEnv)
    (reg : String → Option LanguageConfig) (code language input : String)
    (cfg : LanguageConfig) (r : CommandResult)
    (hreg : reg language = some cfg)
    (hmk : env.mkdirSession = .ok ())
    (hwr : env.writeSource = .ok ())
    (hcs : compileStage env cfg (filepathOf env cfg) (sessionDirOf env) (filenameOf cfg) code =
      .ok none)
    (hrun : runCommand cfg.command
        (cfg.args.map fun arg =>
          substituteArg arg (filepathOf env cfg) (sessionDirOf env) (filenameOf cfg))
        (sessionDirOf env) input cfg.timeout env.singleRun = .ok r) :
    executeCode env reg code language input none =
      .ok { output := r.stdout
            error := r.stderr
            executionTime := env.tFinal - env.tStart
            status := .success
            testCases := none } ∧
    (∀ (cmd : String) (args : List String) (cwd inp : String) (t : Nat)
        (evs : List ProcEvent) (r2 : CommandResult),
      runCommand cmd args cwd inp t ⟨evs, ProcEnding.closed none⟩ = .ok r2 →
      r2.exitCode = 0) := by
  constructor
  · exact executeCode_of_body_ok env reg code language input none cfg _ hreg
      (executeBody_single_run env cfg code input r hmk hwr hcs hrun)
  · intro cmd args cwd inp t evs r2 h
    rw [runCommand] at h
    cases hscan : capScan evs "" "" with
    | error e =>
      simp only [hscan] at h
      simp at h
    | ok p =>
      obtain ⟨so, se⟩ := p
      simp only [hscan] at h
      have h2 := Except.ok.inj h
      rw [← h2]
      rfl

/-- C9 witness: a clean empty single run returns success. -/
theorem executeCode_single_run_ignores_exit_witness :
    executeCode env0 regW "print(1)" "python" "" none =
      .ok { output := ""
            error := ""
            executionTime := 0
            status := .success
            testCases := none } := by
  have h := (executeCode_single_run_ignores_exit env0 regW "print(1)" "python"
    "" cfgPython ⟨"", "", 0⟩ rfl rfl rfl rfl rfl).1
  simpa [env0] using h

/-! ## Claim C5 -/

/-- C5: in test-case mode the aggregate result is status success with empty
top-level output and error; its testCases list is index-aligned with the
request — entry j is exactly the result of running case j — and a case
whose run is rejected (timeout, spawn error, output cap) is recorded with
empty actualOutput, passed false and the non-empty rejection message, while
every other case of the list is still evaluated and recorded. -/
theorem executeCode_testcase_aggregate (env : ExecEnv)
    (reg : String → Option LanguageConfig) (code language input : String)
    (cfg : LanguageConfig) (l : List TestCase)
    (hne : EnvMsgsNonempty env)
    (hreg : reg language = some cfg)
    (hmk : env.mkdirSession = .ok ())
    (hwr : env.writeSource = .ok ())
    (hcs : compileStage env cfg (filepathOf env cfg) (sessionDirOf env) (filenameOf cfg) code =
      .ok none)
    (hl : l ≠ []) :
    executeCode env reg code language input (some l) =
      .ok { output := ""
            error := ""
            executionTime := env.tFinal - env.tStart
            status := .success
            testCases := some (l.mapIdx fun j tc =>
              runOneCase env cfg (filepathOf env cfg) (sessionDirOf env) (filenameOf cfg) tc j) } ∧
    (∀ (j : Nat) (tc : TestCase) (e : String),
      runCommand cfg.command
          (cfg.args.map fun arg =>
            substituteArg arg (filepathOf env cfg) (sessionDirOf env) (filenameOf cfg))
          (sessionDirOf env) tc.input cfg.timeout (env.testRun j) = .error e →
      runOneCase env cfg (filepathOf env cfg) (sessionDirOf env) (filenameOf cfg) tc j =
        { input := tc.input
          expected := tc.expected
          actualOutput := ""
          passed := false
          error := some e
          executionTime := env.tTestEnd j - env.tTestStart j } ∧ e ≠ "") := by
  constructor
  · cases l with
    | nil => exact absurd rfl hl
    | cons tc rest =>
      have hbody := executeBody_test_branch env cfg code input tc rest hmk hwr hcs
      rw [testLoop_eq_mapIdx] at hbody
      simp only [Nat.zero_add] at hbody
      exact executeCode_of_body_ok env reg code language input (some (tc :: rest)) cfg _ hreg hbody
  · intro j tc e h
    constructor
    · simp only [runOneCase, h]
    · rcases runCommand_error_cases _ _ _ _ _ _ _ h with h' | h' | h' | h'
      · rw [h']; decide
      · rw [h']; decide
      · rw [h']; decide
      · exact hne.2.2.2.2.1 j e h'

/-- C5 witness: a single timing-out case is recorded as failed with the
timeout message and the aggregate is a success result. -/
theorem executeCode_testcase_aggregate_witness :
    (runOneCase envTimeout cfgPython (filepathOf envTimeout cfgPython)
      (sessionDirOf envTimeout) (filenameOf cfgPython) ⟨"5", "10"⟩ 0).error =
        some "Execution timeout" ∧
    "Execution timeout" ≠ "" ∧
    executeCode envTimeout regW "n=input()" "python" "" (some [⟨"5", "10"⟩]) =
      .ok { output := ""
            error := ""
            executionTime := envTimeout.tFinal - envTimeout.tStart
            status := .success
            testCases := some ([(⟨"5", "10"⟩ : TestCase)].mapIdx fun j tc =>
              runOneCase envTimeout cfgPython (filepathOf envTimeout cfgPython)
                (sessionDirOf envTimeout) (filenameOf cfgPython) tc j) } := by
  have h := executeCode_testcase_aggregate envTimeout regW "n=input()" "python" ""
    cfgPython [⟨"5", "10"⟩] envTimeout_msgs rfl rfl rfl rfl (by simp)
  have h2 := h.2 0 ⟨"5", "10"⟩ "Execution timeout" rfl
  exact ⟨by rw [h2.1], h2.2, h.1⟩

/-! ## Claim C1 -/

/-- C1 counterexample: for an unsupported language executeCode THROWS to its
caller (the `Unsupported language` check sits before the try block) instead
of returning an ExecutionResult with status error. -/
theorem executeCode_throws_unsupported :
    executeCode env0 regW "print(1)" "brainfuck" "" none =
      .error "Unsupported language: brainfuck" := by
  rfl

/-- C1 (amended): executeCode throws to its caller exactly for an unsupported
language, with the message "Unsupported language: " followed by the language
name; for every registered language it returns an ExecutionResult, and —
provided the environment's own error messages are non-empty — whenever that
result has status error its error string is non-empty (per-case errors in
test-case mode are recorded inside TestCaseResult.error instead). -/
theorem executeCode_error_channel (env : ExecEnv)
    (reg : String → Option LanguageConfig) (code language input : String)
    (tcs : Option (List TestCase))
    (hne : EnvMsgsNonempty env) :
    (reg language = none →
      executeCode env reg code language input tcs =
        .error ("Unsupported language: " ++ language)) ∧
    (∀ cfg, reg language = some cfg →
      ∃ res, executeCode env reg code language input tcs = .ok res ∧
        (res.status = ExecStatus.error → res.error ≠ "")) := by
  constructor
  · intro hnone
    simp only [executeCode, hnone]
  · intro cfg hcfg
    cases hbody : executeBody env cfg code input tcs with
    | ok r =>
      exact ⟨r, executeCode_of_body_ok env reg code language input tcs cfg r hcfg hbody,
        fun hst => executeBody_ok_error_field env cfg code input tcs r hbody hst⟩
    | error e =>
      refine ⟨{ output := ""
                error := e
                executionTime := env.tCatch - env.tStart
                status := .error
                testCases := none }, ?_, ?_⟩
      · simp only [executeCode, hcfg, hbody]
      · intro _
        show e ≠ ""
        exact executeBody_error_msgs env cfg code input tcs e hne hbody

/-- C1 witness: a registered language yields a returned result. -/
theorem executeCode_error_channel_witness :
    ∃ res, executeCode env0 regW "print(1)" "python" "" none = .ok res ∧
      (res.status = ExecStatus.error → res.error ≠ "") :=
  (executeCode_error_channel env0 regW "print(1)" "python" "" none env0_msgs).2 cfgPython rfl
